import Mathlib

/-!
Verification of the minecraft-modpack-updater repository.

This file gives a shallow embedding of the parts of the code relevant to the
frozen claims:

* `generate_manifest.py` (top level): `compute_sha256` (4096-byte chunks) and
  the categorized manifest builder.
* `your-modpack-repo/generate_manifest.py`: `calculate_sha256` (4096-byte
  chunks) and the legacy flat manifest builder.
* `your-modpack-repo/updater.py`: `ModUpdater.calculate_sha256` (8192-byte
  chunks), `ModUpdater.download_file`, and `ModUpdaterApp.run_update`.

Files are modelled as byte lists (`List Nat`), the mod folder as an
association list from file name to contents, and the network as a function
from URL to an optional HTTP response (a list of delivered chunks, the
reported Content-Length, and a flag telling whether the stream errors after
delivering those chunks).  SHA-256 is implemented concretely (Nat arithmetic
reduced mod 2^32), and `hashlib` objects are modelled by the bytes absorbed
so far (`update` appends, `hexdigest` hashes the accumulated bytes).
-/

/-! ### SHA-256 (concrete implementation, bytes are `Nat` < 256) -/

/-- Truncate to a 32-bit word, as Python's fixed-width hash arithmetic. -/
def w32 (n : Nat) : Nat := n % 4294967296

/-- Right rotation of a 32-bit word by `n` bits. -/
def rotr (n x : Nat) : Nat := w32 ((x >>> n) ||| (x <<< (32 - n)))

/-- SHA-256 big sigma 0. -/
def bsig0 (x : Nat) : Nat := (rotr 2 x) ^^^ (rotr 13 x) ^^^ (rotr 22 x)

/-- SHA-256 big sigma 1. -/
def bsig1 (x : Nat) : Nat := (rotr 6 x) ^^^ (rotr 11 x) ^^^ (rotr 25 x)

/-- SHA-256 small sigma 0. -/
def ssig0 (x : Nat) : Nat := (rotr 7 x) ^^^ (rotr 18 x) ^^^ (x >>> 3)

/-- SHA-256 small sigma 1. -/
def ssig1 (x : Nat) : Nat := (rotr 17 x) ^^^ (rotr 19 x) ^^^ (x >>> 10)

/-- SHA-256 choose function. -/
def chFn (x y z : Nat) : Nat := (x &&& y) ^^^ ((x ^^^ 4294967295) &&& z)

/-- SHA-256 majority function. -/
def majFn (x y z : Nat) : Nat := (x &&& y) ^^^ (x &&& z) ^^^ (y &&& z)

/-- The 64 SHA-256 round constants. -/
def shaK : List Nat :=
  [1116352408, 1899447441, 3049323471, 3921009573, 961987163,
   1508970993, 2453635748, 2870763221, 3624381080, 310598401,
   607225278, 1426881987, 1925078388, 2162078206, 2614888103,
   3248222580, 3835390401, 4022224774, 264347078, 604807628,
   770255983, 1249150122, 1555081692, 1996064986, 2554220882,
   2821834349, 2952996808, 3210313671, 3336571891, 3584528711,
   113926993, 338241895, 666307205, 773529912, 1294757372,
   1396182291, 1695183700, 1986661051, 2177026350, 2456956037,
   2730485921, 2820302411, 3259730800, 3345764771, 3516065817,
   3600352804, 4094571909, 275423344, 430227734, 506948616,
   659060556, 883997877, 958139571, 1322822218, 1537002063,
   1747873779, 1955562222, 2024104815, 2227730452, 2361852424,
   2428436474, 2756734187, 3204031479, 3329325298]

/-- Working state of the compression loop (eight 32-bit words). -/
structure Hash8 where
  a : Nat
  b : Nat
  c : Nat
  d : Nat
  e : Nat
  f : Nat
  g : Nat
  h : Nat
deriving DecidableEq

/-- SHA-256 initial hash value. -/
def shaH0 : Hash8 :=
  ⟨1779033703, 3144134277, 1013904242, 2773480762,
   1359893119, 2600822924, 528734635, 1541459225⟩

/-- One SHA-256 compression round with round constant `kt` and schedule word `wt`. -/
def shaRound (s : Hash8) (kw : Nat × Nat) : Hash8 :=
  let t1 := w32 (s.h + bsig1 s.e + chFn s.e s.f s.g + kw.1 + kw.2)
  let t2 := w32 (bsig0 s.a + majFn s.a s.b s.c)
  ⟨w32 (t1 + t2), s.a, s.b, s.c, w32 (s.d + t1), s.e, s.f, s.g⟩

/-- Group bytes into big-endian 32-bit words. -/
def bytesToWords : List Nat → List Nat
  | a :: b :: c :: d :: rest => (((a * 256 + b) * 256 + c) * 256 + d) :: bytesToWords rest
  | _ => []

/-- Extend a 16-word block to the 64-word message schedule (`n` extension steps). -/
def extendSchedule (w : List Nat) : Nat → List Nat
  | 0 => w
  | n + 1 =>
      extendSchedule
        (w ++ [w32 (ssig1 (w.getD (w.length - 2) 0) + w.getD (w.length - 7) 0 +
                    ssig0 (w.getD (w.length - 15) 0) + w.getD (w.length - 16) 0)]) n

/-- Process one 64-byte block, updating the running hash value. -/
def processBlock (hv : Hash8) (block : List Nat) : Hash8 :=
  let w := extendSchedule (bytesToWords block) 48
  let s := (shaK.zip w).foldl shaRound hv
  ⟨w32 (hv.a + s.a), w32 (hv.b + s.b), w32 (hv.c + s.c), w32 (hv.d + s.d),
   w32 (hv.e + s.e), w32 (hv.f + s.f), w32 (hv.g + s.g), w32 (hv.h + s.h)⟩

/-- SHA-256 message padding: `0x80`, zeros to 56 mod 64, 8-byte big-endian bit length. -/
def padMessage (msg : List Nat) : List Nat :=
  let z := (119 - msg.length % 64) % 64
  msg ++ 0x80 :: List.replicate z 0 ++
    (List.range 8).map (fun i => ((msg.length * 8) >>> ((7 - i) * 8)) % 256)

/-- Structural worker for `chunksOf`; the fuel argument only bounds the
recursion depth and is always at least the list length where used. -/
def chunksOfAux (sz : Nat) : Nat → List Nat → List (List Nat)
  | _, [] => []
  | 0, _ => []
  | fuel + 1, b :: rest => ((b :: rest).take sz) :: chunksOfAux sz fuel (rest.drop (sz - 1))

/-- Split a byte list into chunks of `sz` bytes (the last one possibly shorter),
as successive `f.read(sz)` calls return them. -/
def chunksOf (sz : Nat) (l : List Nat) : List (List Nat) := chunksOfAux sz l.length l

/-- The final eight hash words of SHA-256 on a byte message. -/
def sha256words (msg : List Nat) : List Nat :=
  let f := (chunksOf 64 (padMessage msg)).foldl processBlock shaH0
  [f.a, f.b, f.c, f.d, f.e, f.f, f.g, f.h]

/-- Big-endian bytes of one 32-bit word. -/
def wordBytesBE (w : Nat) : List Nat :=
  [(w >>> 24) % 256, (w >>> 16) % 256, (w >>> 8) % 256, w % 256]

/-- SHA-256 digest as 32 bytes. -/
def sha256bytes (msg : List Nat) : List Nat :=
  (sha256words msg).flatMap wordBytesBE

/-- The lowercase hexadecimal digit characters. -/
def hexDigits : List Char := "0123456789abcdef".data

/-- Lowercase hex character of a nibble. -/
def hexChar (n : Nat) : Char := hexDigits.getD (n % 16) '0'

/-- Two lowercase hex characters of a byte. -/
def byteHex (b : Nat) : List Char := [hexChar (b / 16), hexChar (b % 16)]

/-- SHA-256 digest as a lowercase hex string — the value `hashlib`'s
`sha256(msg).hexdigest()` returns. -/
def sha256hex (msg : List Nat) : String :=
  String.mk ((sha256bytes msg).flatMap byteHex)

/-! ### The `hashlib` incremental interface

A `hashlib.sha256()` object is modelled by the byte list absorbed so far:
`update` appends a chunk, `hexdigest` hashes the accumulated bytes. -/

/-- `sha256.update(chunk)`: absorb one chunk. -/
def hashUpdate (st chunk : List Nat) : List Nat := st ++ chunk

/-- Feed a file's bytes to a fresh hash object in reads of `sz` bytes, as
`for chunk in iter(lambda: f.read(sz), b""): sha256.update(chunk)`. -/
def hashFoldChunks (sz : Nat) (data : List Nat) : List Nat :=
  (chunksOf sz data).foldl hashUpdate []

/-- `compute_sha256` of the categorized builder (`src/generate_manifest.py`),
and equally `calculate_sha256` of the legacy flat builder: hash the file's
contents in 4096-byte reads. -/
def compute_sha256 (data : List Nat) : String :=
  sha256hex (hashFoldChunks 4096 data)

/-- The hashing part of `ModUpdater.calculate_sha256` (`updater.py` lines
58-62): hash the file's contents in 8192-byte reads. -/
def clientSha256 (data : List Nat) : String :=
  sha256hex (hashFoldChunks 8192 data)

/-! ### Filesystem model

The mod folder is an association list from file name to byte contents;
`os.listdir` is the key list, `os.path.exists` is `lookup`-success. -/

/-- The mod folder's contents: file name to bytes. -/
abbrev FS := List (String × List Nat)

/-- Write (create or overwrite) a file. -/
def fsWrite (fs : FS) (p : String) (bs : List Nat) : FS :=
  match fs with
  | [] => [(p, bs)]
  | (q, c) :: rest => if q = p then (p, bs) :: rest else (q, c) :: fsWrite rest p bs

/-- `os.remove`: drop a file. -/
def fsRemove (fs : FS) (p : String) : FS :=
  match fs with
  | [] => []
  | (q, c) :: rest => if q = p then fsRemove rest p else (q, c) :: fsRemove rest p

/-- `os.listdir(mod_folder)`. -/
def fsNames (fs : FS) : List String := fs.map (fun e => e.1)

/-! ### Transport model (`ModUpdater.download_file`, updater.py lines 64-86) -/

/-- An HTTP response: the chunks the stream delivers (as successive
`response.read(8192)` results), the reported Content-Length (0 when the
header is absent), and whether the stream errors after delivering the
chunks (a transport failure partway). -/
structure HttpResponse where
  chunks : List (List Nat)
  contentLength : Nat
  broken : Bool

/-- The network: maps a URL to a response, or `none` when `urlopen` raises
(unreachable locator). -/
abbrev Net := String → Option HttpResponse

/-- State produced by the download loop: bytes written to the open
destination file, the values passed to the progress callback, and whether
the whole chunk list was consumed (no early `break` on an empty read). -/
structure DlLoop where
  written : List Nat
  prog : List ℚ
  consumedAll : Bool

/-- The `while True: chunk = response.read(8192); ...` loop: each non-empty
chunk is written to the destination and, when the reported total size is
positive, the callback receives `downloaded / total_size * 100`. -/
def dlWrite (total : Nat) : Nat → List (List Nat) → DlLoop
  | _, [] => ⟨[], [], true⟩
  | downloaded, ch :: rest =>
      if ch.isEmpty then ⟨[], [], false⟩
      else
        let d := downloaded + ch.length
        let r := dlWrite total d rest
        ⟨ch ++ r.written,
         (if 0 < total then [((d : ℚ) / (total : ℚ)) * 100] else []) ++ r.prog,
         r.consumedAll⟩

/-- Result of `download_file`: the returned boolean, the folder afterwards,
and the progress values reported. -/
structure DlResult where
  ok : Bool
  fs : FS
  prog : List ℚ

/-- `ModUpdater.download_file(url, dest, progress_callback)`.  If `urlopen`
raises, the destination is untouched and `False` is returned.  Otherwise
`open(dest, 'wb')` truncates the destination and the loop writes chunks to
it as they arrive; a stream that errors while still being read raises after
its delivered chunks were already written, so the partial bytes remain at
the destination and `False` is returned. -/
def download_file (net : Net) (url dest : String) (fs : FS) : DlResult :=
  match net url with
  | none => ⟨false, fs, []⟩
  | some resp =>
      let r := dlWrite resp.contentLength 0 resp.chunks
      ⟨!(resp.broken && r.consumedAll), fsWrite fs dest r.written, r.prog⟩

/-! ### Client-side hashing (`ModUpdater.calculate_sha256`, updater.py lines 53-62) -/

/-- `ModUpdater.calculate_sha256(filepath)`: `None` when the path does not
exist, otherwise the SHA-256 hex digest of the file read in 8192-byte chunks. -/
def calculate_sha256 (fs : FS) (filepath : String) : Option String :=
  match fs.lookup filepath with
  | none => none
  | some data => some (clientSha256 data)

/-! ### The manifest document and its parsing (`run_update`, updater.py lines 276-298) -/

/-- A parsed JSON document, as `json.load` returns it. -/
inductive JVal where
  | jnull : JVal
  | jbool : Bool → JVal
  | jnum : Int → JVal
  | jstr : String → JVal
  | jarr : List JVal → JVal
  | jobj : List (String × JVal) → JVal

/-- Python `dict.get(k, d)`.  Every use in the source applies it to a parsed
JSON dict; on a non-object the default is returned. -/
def JVal.getD : JVal → String → JVal → JVal
  | JVal.jobj fields, k, d => (fields.lookup k).getD d
  | _, _, d => d

/-- View a JSON value as a list (iteration target). -/
def JVal.asArr : JVal → List JVal
  | JVal.jarr l => l
  | _ => []

/-- View a JSON value as a string. -/
def JVal.asStr : JVal → String
  | JVal.jstr s => s
  | _ => ""

/-- A string-valued field, `none` when absent (or not a string). -/
def jStrOpt : JVal → Option String
  | JVal.jstr s => some s
  | _ => none

/-- `manifest.get("modpack", {}).get("mods", [])` (updater.py line 279). -/
def getMods (doc : JVal) : List JVal :=
  ((doc.getD "modpack" (JVal.jobj [])).getD "mods" (JVal.jarr [])).asArr

/-- One manifest entry as the update loop reads it: `mod.get("file", "")`,
`mod.get("url")`, and the `"sha256"` field (`none` when absent). -/
structure ModEntry where
  file : String
  url : Option String
  sha256 : Option String
deriving DecidableEq

/-- Extract the fields the loop uses from one `mods` element. -/
def toMod (j : JVal) : ModEntry :=
  { file := (j.getD "file" (JVal.jstr "")).asStr
  , url := jStrOpt (j.getD "url" JVal.jnull)
  , sha256 := jStrOpt (j.getD "sha256" JVal.jnull) }

/-- The characters after the last `'/'`: `s.split("/")[-1]` on the char list. -/
def lastSegment (l : List Char) : List Char :=
  l.foldl (fun acc c => if c = '/' then [] else acc ++ [c]) []

/-- `mod.get("file", "").split("/")[-1]` (updater.py line 293). -/
def fname (m : ModEntry) : String := String.mk (lastSegment m.file.data)

/-- The compiled-in fallback locator (updater.py line 309). -/
def githubFallback (m : ModEntry) : String :=
  "https://raw.githubusercontent.com/you-cant-run/minecraft-modpack-updater/main/" ++ m.file

/-- `mod.get("url") or f"https://raw.githubusercontent.com/.../{mod['file']}"`:
a missing or empty (falsy) url field falls back to the compiled-in locator. -/
def modUrl (m : ModEntry) : String :=
  match m.url with
  | some u => if u = "" then githubFallback m else u
  | none => githubFallback m

/-! ### The update loop (`run_update`, updater.py lines 286-345) -/

/-- Per-entry fetch outcome, as the run logs and counts it. -/
inductive FetchOutcome where
  | success : FetchOutcome
  | hashMismatch : FetchOutcome
  | downloadFailed : FetchOutcome
deriving DecidableEq

/-- One reconciliation action as the run performs it, keyed by the file name
the loop derives for the entry. -/
inductive PAction where
  | keep : String → PAction
  | fetch : String → FetchOutcome → PAction
  | del : String → PAction
deriving DecidableEq

/-- Loop state: the folder, the `files_in_manifest` accumulator, the
`success`/`errors` counters, the actions performed so far, and the number of
`download_file` invocations. -/
structure St where
  fs : FS
  filesInManifest : List String
  success : Nat
  errors : Nat
  actions : List PAction
  netCalls : Nat
deriving DecidableEq

/-- The outcome of the download half of one loop iteration (updater.py lines
308-326): download to the live `filepath`; on success verify the recomputed
digest when the entry carries one (`"sha256" in mod and new_hash !=
mod["sha256"]` is a HashMismatch); a failed download is DownloadFailed. -/
def fetchOutcomeOf (net : Net) (fs : FS) (m : ModEntry) (filename : String) : FetchOutcome :=
  let r := download_file net (modUrl m) filename fs
  if r.ok then
    match m.sha256 with
    | some d =>
        if calculate_sha256 r.fs filename = some d then FetchOutcome.success
        else FetchOutcome.hashMismatch
    | none => FetchOutcome.success
  else FetchOutcome.downloadFailed

/-- Apply one fetch's outcome to the loop state: the folder holds whatever
the download wrote, one counter is bumped (`success` for Success, `errors`
for HashMismatch and DownloadFailed alike, updater.py lines 317-326), and
the outcome is recorded. -/
def fetchStep (net : Net) (st : St) (m : ModEntry) (filename : String) : St :=
  let r := download_file net (modUrl m) filename st.fs
  let o := fetchOutcomeOf net st.fs m filename
  { st with fs := r.fs,
            netCalls := st.netCalls + 1,
            success := st.success + (if o = FetchOutcome.success then 1 else 0),
            errors := st.errors + (if o = FetchOutcome.success then 0 else 1),
            actions := st.actions ++ [PAction.fetch filename o] }

/-- One iteration of `for mod in mods` (updater.py lines 292-327).  An entry
whose derived file name is empty is skipped; an existing local file whose
digest equals the entry's expected digest is kept; otherwise the file is
fetched.  (`os.path.exists` then hashing is the same case split as matching
on `calculate_sha256`, which is `none` exactly when the path is absent.) -/
def stepMod (net : Net) (st : St) (m : ModEntry) : St :=
  let filename := fname m
  if filename = "" then st
  else
    let st1 := { st with filesInManifest := st.filesInManifest ++ [filename] }
    match calculate_sha256 st1.fs filename with
    | some h =>
        if m.sha256 = some h then
          { st1 with success := st1.success + 1,
                     actions := st1.actions ++ [PAction.keep filename] }
        else fetchStep net st1 m filename
    | none => fetchStep net st1 m filename

/-- The cleanup pass (updater.py lines 330-340): when `remove_old` is set,
remove the set `existing_files - files_in_manifest` (`existing` is the
folder listing captured before the loop).  Set subtraction is modelled by
filter-then-dedup. -/
def cleanup (remove_old : Bool) (existing : List String) (st : St) : St :=
  if remove_old then
    let stale := (existing.filter (fun f => !(st.filesInManifest.contains f))).dedup
    { st with fs := stale.foldl fsRemove st.fs,
              actions := st.actions ++ stale.map PAction.del }
  else st

/-- Aggregate result of one `run_update` invocation. -/
structure RunResult where
  err : Option String
  fs : FS
  actions : List PAction
  success : Nat
  errors : Nat
  netCalls : Nat
deriving DecidableEq

/-- The body of `run_update` after the manifest's `mods` list is in hand:
the per-entry loop followed by the cleanup pass. -/
def runUpdateCore (net : Net) (remove_old : Bool) (mods : List ModEntry) (fs0 : FS) : RunResult :=
  let st0 : St := ⟨fs0, [], 0, 0, [], 0⟩
  let st1 := mods.foldl (stepMod net) st0
  let st2 := cleanup remove_old (fsNames fs0) st1
  ⟨none, st2.fs, st2.actions, st2.success, st2.errors, st2.netCalls⟩

/-- `ModUpdaterApp.run_update` on a fetched manifest document: extract
`modpack.mods`; an empty list raises `ValueError("No mods found in
manifest!")`, which the surrounding handler reports, aborting the run before
any action; otherwise run the loop and the cleanup pass. -/
def runUpdate (doc : JVal) (net : Net) (remove_old : Bool) (fs0 : FS) : RunResult :=
  let modsJson := getMods doc
  if modsJson.isEmpty then
    ⟨some "No mods found in manifest!", fs0, [], 0, 0, 0⟩
  else
    runUpdateCore net remove_old (modsJson.map toMod) fs0

/-! ### The legacy flat manifest builder
(`your-modpack-repo/generate_manifest.py`): a flat object keyed by the
`.jar` file names of the mods directory, each mapping to its url and its
SHA-256 (computed with the same 4096-byte-chunk function as the categorized
builder). -/

/-- Base URL the legacy builder prepends to each file name. -/
def legacyBaseUrl : String :=
  "https://raw.githubusercontent.com/you-cant-run/minecraft-modpack-updater/main/mods/"

/-- `filename.endswith(".jar")`, computed on the char lists. -/
def strEndsWith (s suf : String) : Bool :=
  (s.data.reverse.take suf.data.length).reverse == suf.data

/-- `generate_manifest()` of the legacy flat builder, over the mods
directory listing (name, contents). -/
def generate_manifest_flat (files : List (String × List Nat)) : JVal :=
  JVal.jobj ((files.filter (fun f => strEndsWith f.1 ".jar")).map
    (fun f => (f.1, JVal.jobj
      [("url", JVal.jstr (legacyBaseUrl ++ f.1)),
       ("sha256", JVal.jstr (compute_sha256 f.2))])))

/-! ### Action views -/

/-- The relative path an action is keyed by. -/
def actionPath : PAction → String
  | PAction.keep p => p
  | PAction.fetch p _ => p
  | PAction.del p => p

/-- Is this a Delete action? -/
def PAction.isDel : PAction → Bool
  | PAction.del _ => true
  | _ => false

/-- Paths of the Keep and Fetch actions, in order. -/
def keepFetchPaths (l : List PAction) : List String :=
  l.filterMap (fun a => match a with
    | PAction.keep p => some p
    | PAction.fetch p _ => some p
    | PAction.del _ => none)

/-- Paths of the Delete actions, in order. -/
def delPaths (l : List PAction) : List String :=
  l.filterMap (fun a => match a with
    | PAction.del p => some p
    | _ => none)

/-- A per-entry result that is Success or HashMismatch for that entry. -/
def okOutcome (m : ModEntry) (a : PAction) : Prop :=
  a = PAction.fetch (fname m) FetchOutcome.success ∨
  a = PAction.fetch (fname m) FetchOutcome.hashMismatch

/-! ### Concrete fixtures used by witnesses and counterexamples -/

/-- A network on which every locator is unreachable. -/
def netNone : Net := fun _ => none

/-- A categorized manifest document with an empty mods list. -/
def docEmptyCat : JVal := JVal.jobj [("modpack", JVal.jobj [("mods", JVal.jarr [])])]

/-- A legacy flat manifest document (filename to url/sha256 mapping). -/
def docFlatLegacy : JVal :=
  JVal.jobj [("OptiFine.jar", JVal.jobj
    [("url", JVal.jstr "https://example.com/OptiFine.jar"),
     ("sha256", JVal.jstr "aa")])]

/-! ### Claims C2 and C9 (transport) -/

/-- A network delivering 2 of 4 announced bytes and then erroring. -/
def netPartial : Net := fun _ => some ⟨[[1, 2]], 4, true⟩

/-- A network whose response carries no Content-Length (reported 0). -/
def netNoLength : Net := fun _ => some ⟨[[1]], 0, false⟩

/-- A healthy network delivering one file in two chunks. -/
def netTwoChunks : Net := fun _ => some ⟨[[1], [2, 3]], 3, false⟩

/-- A healthy network delivering one file in one chunk. -/
def netOneGood : Net := fun _ => some ⟨[[1, 2, 3]], 3, false⟩

/-- The one-entry manifest `mods/a.jar` expecting the digest of `[1]`. -/
def modsC5 : List ModEntry := [⟨"mods/a.jar", none, some (sha256hex [1])⟩]

/-- The two-entry manifest whose files share the base name `a.jar`. -/
def modsC6cx : List ModEntry :=
  [⟨"mods/a.jar", none, none⟩, ⟨"mods/sub/a.jar", none, none⟩]

/-- A network delivering the single byte `[2]` for every locator. -/
def netC6 : Net := fun _ => some ⟨[[2]], 1, false⟩

/-- The one-entry manifest `mods/a.jar` carrying no expected digest. -/
def modsC6w : List ModEntry := [⟨"mods/a.jar", none, none⟩]

/-- A folder holding `a.jar` and one stale file. -/
def fsC6w : FS := [("a.jar", [1]), ("old.jar", [2])]

/-! ### Claims C4 and C1 (execution) -/

/-- Is this action a recorded DownloadFailed outcome? -/
def isDownloadFailed : PAction → Bool
  | PAction.fetch _ FetchOutcome.downloadFailed => true
  | _ => false

/-- A network that only serves the compiled-in locator of `mods/b.jar`. -/
def netC4 : Net := fun u =>
  if u = "https://raw.githubusercontent.com/you-cant-run/minecraft-modpack-updater/main/mods/b.jar"
  then some ⟨[[5]], 1, false⟩ else none

/-! ### Claims C5 and C6 (planning) -/

set_option maxRecDepth 100000

/-! ### Chunking lemmas -/

theorem chunksOfAux_flatten (sz : Nat) (hsz : 1 ≤ sz) :
    ∀ fuel l, l.length ≤ fuel → (chunksOfAux sz fuel l).flatten = l := by
  intro fuel
  induction fuel with
  | zero =>
      intro l hl
      have : l = [] := List.length_eq_zero.mp (Nat.le_zero.mp hl)
      subst this
      simp [chunksOfAux]
  | succ n ih =>
      intro l hl
      match l with
      | [] => simp [chunksOfAux]
      | b :: rest =>
          rw [chunksOfAux]
          have hlen : (rest.drop (sz - 1)).length ≤ n := by
            simp only [List.length_drop]
            have := List.length_cons b rest ▸ hl
            omega
          rw [List.flatten_cons, ih _ hlen]
          have hdrop : rest.drop (sz - 1) = (b :: rest).drop sz := by
            cases sz with
            | zero => omega
            | succ m => simp [List.drop_succ_cons]
          rw [hdrop, List.take_append_drop]

theorem chunksOf_flatten (sz : Nat) (hsz : 1 ≤ sz) (l : List Nat) :
    (chunksOf sz l).flatten = l :=
  chunksOfAux_flatten sz hsz l.length l le_rfl

theorem foldl_hashUpdate (chunks : List (List Nat)) :
    ∀ acc, chunks.foldl hashUpdate acc = acc ++ chunks.flatten := by
  induction chunks with
  | nil => intro acc; simp
  | cons c cs ih => intro acc; simp [hashUpdate, ih, List.append_assoc]

theorem hashFoldChunks_eq (sz : Nat) (hsz : 1 ≤ sz) (data : List Nat) :
    hashFoldChunks sz data = data := by
  unfold hashFoldChunks
  rw [foldl_hashUpdate, chunksOf_flatten sz hsz, List.nil_append]

theorem compute_sha256_eq (data : List Nat) : compute_sha256 data = sha256hex data := by
  unfold compute_sha256
  rw [hashFoldChunks_eq 4096 (by omega)]

theorem clientSha256_eq (data : List Nat) : clientSha256 data = sha256hex data := by
  unfold clientSha256
  rw [hashFoldChunks_eq 8192 (by omega)]

theorem hexChar_mem (n : Nat) : hexChar n ∈ hexDigits := by
  have h : n % 16 < hexDigits.length := by
    have := Nat.mod_lt n (show 0 < 16 by omega)
    simpa [hexDigits] using this
  rw [hexChar, List.getD_eq_getElem hexDigits '0' h]
  exact List.getElem_mem h

theorem sha256hex_chars_lowercase (msg : List Nat) :
    ∀ c ∈ (sha256hex msg).data, c ∈ hexDigits := by
  intro c hc
  simp only [sha256hex, String.mk] at hc
  rcases List.mem_flatMap.mp hc with ⟨b, _, hb⟩
  simp only [byteHex, List.mem_cons, List.not_mem_nil, or_false] at hb
  rcases hb with h1 | h2
  · rw [h1]; exact hexChar_mem _
  · rw [h2]; exact hexChar_mem _

/-! ### Filesystem and download-loop lemmas -/

theorem fsWrite_lookup_self (fs : FS) (p : String) (bs : List Nat) :
    (fsWrite fs p bs).lookup p = some bs := by
  induction fs with
  | nil => simp [fsWrite, List.lookup]
  | cons e rest ih =>
      obtain ⟨q, c⟩ := e
      by_cases h : q = p
      · simp [fsWrite, h, List.lookup]
      · simp only [fsWrite, if_neg h, List.lookup]
        have : (p == q) = false := by
          simp [beq_iff_eq]
          exact fun hh => h hh.symm
        rw [this]
        exact ih

theorem fsWrite_lookup_ne (fs : FS) (p q : String) (bs : List Nat) (h : q ≠ p) :
    (fsWrite fs p bs).lookup q = fs.lookup q := by
  induction fs with
  | nil =>
      simp only [fsWrite, List.lookup]
      have : (q == p) = false := by simp [beq_iff_eq]; exact h
      simp [this]
  | cons e rest ih =>
      obtain ⟨r, c⟩ := e
      by_cases hr : r = p
      · subst hr
        simp only [fsWrite, if_pos rfl, List.lookup]
        have : (q == r) = false := by simp [beq_iff_eq]; exact h
        simp [this]
      · simp only [fsWrite, if_neg hr, List.lookup]
        cases hqr : (q == r) with
        | true => rfl
        | false => exact ih

theorem dlWrite_complete (total : Nat) (chunks : List (List Nat))
    (hne : ∀ ch ∈ chunks, ch ≠ []) :
    ∀ d, (dlWrite total d chunks).written = chunks.flatten ∧
      (dlWrite total d chunks).consumedAll = true := by
  induction chunks with
  | nil => intro d; simp [dlWrite]
  | cons ch rest ih =>
      intro d
      have hch : ch ≠ [] := hne ch (List.mem_cons_self ch rest)
      have hempty : ch.isEmpty = false := by
        cases ch with
        | nil => exact absurd rfl hch
        | cons a l => rfl
      have hrest := ih (fun c hc => hne c (List.mem_cons_of_mem ch hc)) (d + ch.length)
      simp [dlWrite, hempty, hrest.1, hrest.2]

theorem pct_mono (total : Nat) (ht : 0 < total) (a b : Nat) (hab : a ≤ b) :
    ((a : ℚ) / (total : ℚ)) * 100 ≤ ((b : ℚ) / (total : ℚ)) * 100 := by
  have htq : (0 : ℚ) < (total : ℚ) := by exact_mod_cast ht
  have habq : (a : ℚ) ≤ (b : ℚ) := by exact_mod_cast hab
  have := (div_le_div_iff_of_pos_right htq).mpr habq
  nlinarith

theorem dlWrite_prog_chain (total : Nat) (ht : 0 < total) (chunks : List (List Nat))
    (hne : ∀ ch ∈ chunks, ch ≠ []) :
    ∀ d, (dlWrite total d chunks).prog.length = chunks.length ∧
      List.Chain (· ≤ ·) (((d : ℚ) / (total : ℚ)) * 100) (dlWrite total d chunks).prog := by
  induction chunks with
  | nil => intro d; simp [dlWrite]
  | cons ch rest ih =>
      intro d
      have hch : ch ≠ [] := hne ch (List.mem_cons_self ch rest)
      have hempty : ch.isEmpty = false := by
        cases ch with
        | nil => exact absurd rfl hch
        | cons a l => rfl
      have hrest := ih (fun c hc => hne c (List.mem_cons_of_mem ch hc)) (d + ch.length)
      constructor
      · simp [dlWrite, hempty, ht, hrest.1]
      · simp only [dlWrite, hempty, if_pos ht, Bool.false_eq_true, if_neg]
        simp only [List.singleton_append]
        exact List.Chain.cons (pct_mono total ht d (d + ch.length) (Nat.le_add_right _ _))
          hrest.2

/-! ### Structural lemmas about the update loop -/

theorem fsRemove_lookup_ne (p q : String) (h : q ≠ p) :
    ∀ fs : FS, (fsRemove fs p).lookup q = fs.lookup q := by
  intro fs
  induction fs with
  | nil => rfl
  | cons e rest ih =>
      obtain ⟨r, c⟩ := e
      by_cases hr : r = p
      · rw [fsRemove, if_pos hr, ih, List.lookup]
        have hq : (q == r) = false := by
          simp only [beq_eq_false_iff_ne, ne_eq]
          exact fun hqr => h (hqr.trans hr)
        rw [hq]
      · rw [fsRemove, if_neg hr]
        simp only [List.lookup]
        cases hqr : (q == r) with
        | true => rfl
        | false => exact ih

theorem foldl_fsRemove_lookup (stale : List String) :
    ∀ fs q, (∀ p ∈ stale, p ≠ q) → (stale.foldl fsRemove fs).lookup q = fs.lookup q := by
  induction stale with
  | nil => intro fs q _; rfl
  | cons p rest ih =>
      intro fs q h
      simp only [List.foldl_cons]
      rw [ih (fsRemove fs p) q (fun x hx => h x (List.mem_cons_of_mem p hx))]
      exact fsRemove_lookup_ne p q (fun hq => h p (List.mem_cons_self p rest) hq.symm) fs

theorem download_file_fs_lookup_other (net : Net) (url dest q : String) (fs : FS)
    (h : q ≠ dest) : (download_file net url dest fs).fs.lookup q = fs.lookup q := by
  unfold download_file
  cases hn : net url with
  | none => rfl
  | some resp => exact fsWrite_lookup_ne fs dest q _ h

theorem fetchStep_fs_eq (net : Net) (st : St) (m : ModEntry) (filename : String) :
    (fetchStep net st m filename).fs = (download_file net (modUrl m) filename st.fs).fs := rfl

theorem fetchStep_action (net : Net) (st : St) (m : ModEntry) (filename : String) :
    (fetchStep net st m filename).actions
      = st.actions ++ [PAction.fetch filename (fetchOutcomeOf net st.fs m filename)] ∧
    (fetchStep net st m filename).filesInManifest = st.filesInManifest ∧
    (fetchStep net st m filename).netCalls = st.netCalls + 1 := ⟨rfl, rfl, rfl⟩

theorem stepMod_skip (net : Net) (st : St) (m : ModEntry) (h : fname m = "") :
    stepMod net st m = st := by
  simp [stepMod, h]

theorem stepMod_shape (net : Net) (st : St) (m : ModEntry) (h : fname m ≠ "") :
    ∃ a : PAction, actionPath a = fname m ∧ a.isDel = false ∧
      (stepMod net st m).actions = st.actions ++ [a] ∧
      (stepMod net st m).filesInManifest = st.filesInManifest ++ [fname m] := by
  simp only [stepMod, if_neg h]
  cases hc : calculate_sha256 st.fs (fname m) with
  | some hsh =>
      by_cases hs : m.sha256 = some hsh
      · simp only [hc, if_pos hs]
        exact ⟨PAction.keep (fname m), rfl, rfl, rfl, trivial⟩
      · simp only [hc, if_neg hs]
        exact ⟨PAction.fetch (fname m) _, rfl, rfl, rfl, rfl⟩
  | none =>
      simp only [hc]
      exact ⟨PAction.fetch (fname m) _, rfl, rfl, rfl, rfl⟩

theorem stepMod_fs_lookup_other (net : Net) (st : St) (m : ModEntry) (q : String)
    (h : fname m ≠ q) : (stepMod net st m).fs.lookup q = st.fs.lookup q := by
  by_cases hf : fname m = ""
  · rw [stepMod_skip net st m hf]
  · simp only [stepMod, if_neg hf]
    cases hc : calculate_sha256 st.fs (fname m) with
    | some hsh =>
        by_cases hs : m.sha256 = some hsh
        · simp only [hc, if_pos hs]
        · simp only [hc, if_neg hs]
          rw [fetchStep_fs_eq]
          exact download_file_fs_lookup_other net (modUrl m) (fname m) q st.fs
            (fun hq => h hq.symm)
    | none =>
        simp only [hc]
        rw [fetchStep_fs_eq]
        exact download_file_fs_lookup_other net (modUrl m) (fname m) q st.fs
          (fun hq => h hq.symm)

theorem foldl_stepMod_shape (net : Net) (l : List ModEntry) :
    ∀ st : St, (∀ m ∈ l, fname m ≠ "") →
    ∃ outs : List PAction,
      List.Forall₂ (fun m a => actionPath a = fname m ∧ a.isDel = false) l outs ∧
      (l.foldl (stepMod net) st).actions = st.actions ++ outs ∧
      (l.foldl (stepMod net) st).filesInManifest = st.filesInManifest ++ l.map fname := by
  induction l with
  | nil => intro st _; exact ⟨[], List.Forall₂.nil, by simp, by simp⟩
  | cons m rest ih =>
      intro st hne
      obtain ⟨a, hpath, hdel, hact, hfiles⟩ :=
        stepMod_shape net st m (hne m (List.mem_cons_self m rest))
      obtain ⟨outs, hf2, hact2, hfiles2⟩ :=
        ih (stepMod net st m) (fun x hx => hne x (List.mem_cons_of_mem m hx))
      refine ⟨a :: outs, List.Forall₂.cons ⟨hpath, hdel⟩ hf2, ?_, ?_⟩
      · rw [List.foldl_cons, hact2, hact, List.append_assoc, List.singleton_append]
      · rw [List.foldl_cons, hfiles2, hfiles, List.map_cons, List.append_assoc,
            List.singleton_append]

theorem foldl_fs_lookup_other (net : Net) (l : List ModEntry) :
    ∀ st q, (∀ m ∈ l, fname m ≠ q) →
      (l.foldl (stepMod net) st).fs.lookup q = st.fs.lookup q := by
  induction l with
  | nil => intro st q _; rfl
  | cons m rest ih =>
      intro st q h
      rw [List.foldl_cons, ih _ q (fun x hx => h x (List.mem_cons_of_mem m hx)),
          stepMod_fs_lookup_other net st m q (h m (List.mem_cons_self m rest))]

theorem calculate_sha256_of_lookup (fs : FS) (p : String) (c : List Nat)
    (hc : fs.lookup p = some c) : calculate_sha256 fs p = some (sha256hex c) := by
  unfold calculate_sha256
  rw [hc]
  show some (clientSha256 c) = some (sha256hex c)
  rw [clientSha256_eq]

theorem stepMod_keep (net : Net) (st : St) (m : ModEntry) (c : List Nat)
    (hne : fname m ≠ "") (hc : st.fs.lookup (fname m) = some c)
    (hsha : m.sha256 = some (sha256hex c)) :
    stepMod net st m = { st with filesInManifest := st.filesInManifest ++ [fname m],
                                 success := st.success + 1,
                                 actions := st.actions ++ [PAction.keep (fname m)] } := by
  simp only [stepMod, if_neg hne, calculate_sha256_of_lookup st.fs (fname m) c hc,
             if_pos hsha]

theorem foldl_stepMod_keep (net : Net) (l : List ModEntry) :
    ∀ st : St, (∀ m ∈ l, fname m ≠ "") →
    (∀ m ∈ l, ∃ c, st.fs.lookup (fname m) = some c ∧ m.sha256 = some (sha256hex c)) →
    (l.foldl (stepMod net) st).fs = st.fs ∧
    (l.foldl (stepMod net) st).actions
      = st.actions ++ l.map (fun m => PAction.keep (fname m)) ∧
    (l.foldl (stepMod net) st).netCalls = st.netCalls ∧
    (l.foldl (stepMod net) st).filesInManifest = st.filesInManifest ++ l.map fname := by
  induction l with
  | nil => intro st _ _; exact ⟨rfl, by simp, rfl, by simp⟩
  | cons m rest ih =>
      intro st hne hsync
      obtain ⟨c, hc, hsha⟩ := hsync m (List.mem_cons_self m rest)
      rw [List.foldl_cons, stepMod_keep net st m c (hne m (List.mem_cons_self m rest)) hc hsha]
      obtain ⟨ih1, ih2, ih3, ih4⟩ := ih
        { st with filesInManifest := st.filesInManifest ++ [fname m],
                  success := st.success + 1,
                  actions := st.actions ++ [PAction.keep (fname m)] }
        (fun x hx => hne x (List.mem_cons_of_mem m hx))
        (fun x hx => hsync x (List.mem_cons_of_mem m hx))
      refine ⟨ih1, ?_, ih3, ?_⟩
      · rw [ih2]
        simp [List.append_assoc]
      · rw [ih4]
        simp [List.append_assoc]

theorem cleanup_actions (ro : Bool) (ex : List String) (st : St) :
    (cleanup ro ex st).actions = st.actions ++
      (if ro then
        ((ex.filter (fun f => !(st.filesInManifest.contains f))).dedup).map PAction.del
       else []) := by
  cases ro <;> simp [cleanup]

theorem cleanup_fs_lookup_mem (ro : Bool) (ex : List String) (st : St) (q : String)
    (h : q ∈ st.filesInManifest) : (cleanup ro ex st).fs.lookup q = st.fs.lookup q := by
  cases ro with
  | false => simp [cleanup]
  | true =>
      simp only [cleanup, if_pos]
      apply foldl_fsRemove_lookup
      intro p hp hpq
      subst hpq
      have hmem := List.mem_filter.mp (List.mem_dedup.mp hp)
      have hnotin : ¬ p ∈ st.filesInManifest := by
        have h2 := hmem.2
        simp only [Bool.not_eq_true'] at h2
        simpa using h2
      exact hnotin h

theorem cleanup_id_of_cover (ro : Bool) (ex : List String) (st : St)
    (h : ∀ f ∈ ex, f ∈ st.filesInManifest) : cleanup ro ex st = st := by
  cases ro with
  | false => simp [cleanup]
  | true =>
      cases st with
      | mk fs files succ errs acts ncalls =>
          have hstale : ex.filter (fun f => !(decide (f ∈ files))) = [] := by
            rw [List.filter_eq_nil_iff]
            intro f hf
            simp [h f hf]
          simp [cleanup, hstale]

theorem download_file_none (net : Net) (url dest : String) (fs : FS)
    (hn : net url = none) : download_file net url dest fs = ⟨false, fs, []⟩ := by
  unfold download_file
  rw [hn]

theorem download_file_some (net : Net) (url dest : String) (fs : FS) (resp : HttpResponse)
    (hn : net url = some resp) :
    download_file net url dest fs =
      ⟨!(resp.broken && (dlWrite resp.contentLength 0 resp.chunks).consumedAll),
       fsWrite fs dest (dlWrite resp.contentLength 0 resp.chunks).written,
       (dlWrite resp.contentLength 0 resp.chunks).prog⟩ := by
  unfold download_file
  rw [hn]

theorem fetchOutcomeOf_fail (net : Net) (fs : FS) (m : ModEntry) (filename : String)
    (hn : net (modUrl m) = none) :
    fetchOutcomeOf net fs m filename = FetchOutcome.downloadFailed := by
  unfold fetchOutcomeOf
  rw [download_file_none net (modUrl m) filename fs hn]
  rfl

theorem fetchOutcomeOf_ok (net : Net) (fs : FS) (m : ModEntry) (filename : String)
    (resp : HttpResponse) (hn : net (modUrl m) = some resp) (hb : resp.broken = false) :
    fetchOutcomeOf net fs m filename = FetchOutcome.success ∨
    fetchOutcomeOf net fs m filename = FetchOutcome.hashMismatch := by
  unfold fetchOutcomeOf
  rw [download_file_some net (modUrl m) filename fs resp hn, hb]
  simp only [Bool.false_and, Bool.not_false, if_true]
  cases m.sha256 with
  | none => exact Or.inl rfl
  | some d =>
      by_cases hcalc : calculate_sha256
        (fsWrite fs filename (dlWrite resp.contentLength 0 resp.chunks).written) filename
          = some d
      · exact Or.inl (by simp [hcalc])
      · exact Or.inr (by simp [hcalc])

theorem stepMod_fetch_fresh (net : Net) (st : St) (m : ModEntry)
    (hne : fname m ≠ "") (habs : st.fs.lookup (fname m) = none) :
    stepMod net st m =
      fetchStep net { st with filesInManifest := st.filesInManifest ++ [fname m] }
        m (fname m) := by
  have hcalc : calculate_sha256 st.fs (fname m) = none := by
    unfold calculate_sha256
    rw [habs]
  simp only [stepMod, if_neg hne, hcalc]

theorem foldl_fresh (net : Net) (l : List ModEntry) :
    ∀ st : St, (∀ m ∈ l, fname m ≠ "") → (l.map fname).Nodup →
    (∀ m ∈ l, st.fs.lookup (fname m) = none) →
    (∀ m ∈ l, ∃ resp, net (modUrl m) = some resp ∧ resp.broken = false) →
    ∃ outs, List.Forall₂ okOutcome l outs ∧
      (l.foldl (stepMod net) st).actions = st.actions ++ outs := by
  induction l with
  | nil => intro st _ _ _ _; exact ⟨[], List.Forall₂.nil, by simp⟩
  | cons m rest ih =>
      intro st hne hnd habs hok
      obtain ⟨resp, hn, hb⟩ := hok m (List.mem_cons_self m rest)
      have hnd2 : (fname m ∉ rest.map fname) ∧ (rest.map fname).Nodup :=
        List.nodup_cons.mp (by simpa using hnd)
      have hstep := stepMod_fetch_fresh net st m (hne m (List.mem_cons_self m rest))
        (habs m (List.mem_cons_self m rest))
      rw [List.foldl_cons, hstep]
      have hofs : (fetchStep net
          { st with filesInManifest := st.filesInManifest ++ [fname m] } m (fname m)).fs
          = (download_file net (modUrl m) (fname m) st.fs).fs := rfl
      obtain ⟨outs, hf2, hact2⟩ := ih
        (fetchStep net { st with filesInManifest := st.filesInManifest ++ [fname m] }
          m (fname m))
        (fun x hx => hne x (List.mem_cons_of_mem m hx))
        hnd2.2
        (by
          intro x hx
          rw [hofs, download_file_fs_lookup_other net (modUrl m) (fname m) (fname x) st.fs
            (by
              intro hq
              exact hnd2.1 (hq ▸ List.mem_map_of_mem fname hx))]
          exact habs x (List.mem_cons_of_mem m hx))
        (fun x hx => hok x (List.mem_cons_of_mem m hx))
      have ho := fetchOutcomeOf_ok net st.fs m (fname m) resp hn hb
      refine ⟨PAction.fetch (fname m) (fetchOutcomeOf net st.fs m (fname m)) :: outs, ?_, ?_⟩
      · refine List.Forall₂.cons ?_ hf2
        rcases ho with h | h
        · exact Or.inl (by rw [h])
        · exact Or.inr (by rw [h])
      · rw [hact2]
        show ((st.actions ++ [PAction.fetch (fname m) _]) ++ outs) = _
        rw [List.append_assoc, List.singleton_append]

theorem forall₂_keepFetch (l : List ModEntry) (outs : List PAction)
    (h : List.Forall₂ (fun m a => actionPath a = fname m ∧ a.isDel = false) l outs) :
    keepFetchPaths outs = l.map fname ∧ delPaths outs = [] ∧
    outs.map actionPath = l.map fname ∧ outs.length = l.length := by
  induction h with
  | nil => exact ⟨rfl, rfl, rfl, rfl⟩
  | @cons m a l2 outs2 hma hrest ih =>
      obtain ⟨hpath, hdel⟩ := hma
      obtain ⟨ih1, ih2, ih3, ih4⟩ := ih
      cases a with
      | keep p =>
          have hp : p = fname m := hpath
          subst hp
          exact ⟨by simp [keepFetchPaths, List.filterMap_cons] at ih1 ⊢; exact ih1,
                 by simp [delPaths, List.filterMap_cons] at ih2 ⊢; exact ih2,
                 by simp [actionPath] at ih3 ⊢; exact ih3,
                 by simp [ih4]⟩
      | fetch p o =>
          have hp : p = fname m := hpath
          subst hp
          exact ⟨by simp [keepFetchPaths, List.filterMap_cons] at ih1 ⊢; exact ih1,
                 by simp [delPaths, List.filterMap_cons] at ih2 ⊢; exact ih2,
                 by simp [actionPath] at ih3 ⊢; exact ih3,
                 by simp [ih4]⟩
      | del p =>
          exact absurd hdel (by simp [PAction.isDel])

theorem delPaths_map_del (l : List String) : delPaths (l.map PAction.del) = l := by
  induction l with
  | nil => rfl
  | cons p rest ih => simp [delPaths, List.filterMap_cons] at ih ⊢; exact ih

theorem keepFetchPaths_map_del (l : List String) :
    keepFetchPaths (l.map PAction.del) = [] := by
  induction l with
  | nil => rfl
  | cons p rest ih =>
      simp only [List.map_cons, keepFetchPaths, List.filterMap_cons]
      exact ih

theorem map_actionPath_map_del (l : List String) :
    (l.map PAction.del).map actionPath = l := by
  induction l with
  | nil => rfl
  | cons p rest ih => simp [actionPath] at ih ⊢; exact ih

theorem keepFetchPaths_append (l1 l2 : List PAction) :
    keepFetchPaths (l1 ++ l2) = keepFetchPaths l1 ++ keepFetchPaths l2 := by
  simp [keepFetchPaths, List.filterMap_append]

theorem delPaths_append (l1 l2 : List PAction) :
    delPaths (l1 ++ l2) = delPaths l1 ++ delPaths l2 := by
  simp [delPaths, List.filterMap_append]

theorem stepMod_fetch_mismatch (net : Net) (st : St) (m : ModEntry) (c : List Nat)
    (d : String) (resp : HttpResponse)
    (hne : fname m ≠ "") (hc : st.fs.lookup (fname m) = some c)
    (hd : m.sha256 = some d) (hmis : sha256hex c ≠ d)
    (hn : net (modUrl m) = some resp) (hb : resp.broken = false)
    (hmis2 : sha256hex (dlWrite resp.contentLength 0 resp.chunks).written ≠ d) :
    (stepMod net st m).actions
      = st.actions ++ [PAction.fetch (fname m) FetchOutcome.hashMismatch] ∧
    (stepMod net st m).fs.lookup (fname m)
      = some (dlWrite resp.contentLength 0 resp.chunks).written ∧
    (stepMod net st m).filesInManifest = st.filesInManifest ++ [fname m] := by
  have hcalc := calculate_sha256_of_lookup st.fs (fname m) c hc
  have hs : ¬ m.sha256 = some (sha256hex c) := by
    rw [hd]
    intro hx
    exact hmis (Option.some.inj hx).symm
  have hred : stepMod net st m = fetchStep net
      { st with filesInManifest := st.filesInManifest ++ [fname m] } m (fname m) := by
    simp only [stepMod, if_neg hne, hcalc, if_neg hs]
  have ho : fetchOutcomeOf net st.fs m (fname m) = FetchOutcome.hashMismatch := by
    unfold fetchOutcomeOf
    rw [download_file_some net (modUrl m) (fname m) st.fs resp hn, hb]
    simp only [Bool.false_and, Bool.not_false, if_true]
    rw [hd, calculate_sha256_of_lookup _ _ _ (fsWrite_lookup_self st.fs (fname m) _)]
    simp [hmis2]
  rw [hred]
  refine ⟨?_, ?_, rfl⟩
  · show (st.actions ++ [PAction.fetch (fname m) (fetchOutcomeOf net st.fs m (fname m))]) = _
    rw [ho]
  · rw [fetchStep_fs_eq, download_file_some net (modUrl m) (fname m) _ resp hn]
    exact fsWrite_lookup_self _ _ _

/-! ### Generic manifest-document lemmas -/

theorem lookup_none_of_ne {β : Type} (k : String) (l : List (String × β))
    (h : ∀ e ∈ l, e.1 ≠ k) : l.lookup k = none := by
  induction l with
  | nil => rfl
  | cons e rest ih =>
      obtain ⟨r, v⟩ := e
      have hr : (k == r) = false := by
        simp only [beq_eq_false_iff_ne, ne_eq]
        intro hk
        exact h (r, v) (List.mem_cons_self _ _) hk.symm
      simp only [List.lookup, hr]
      exact ih (fun x hx => h x (List.mem_cons_of_mem _ hx))

theorem getMods_no_modpack (fields : List (String × JVal))
    (h : fields.lookup "modpack" = none) : getMods (JVal.jobj fields) = [] := by
  show (((fields.lookup "modpack").getD (JVal.jobj [])).getD "mods" (JVal.jarr [])).asArr = []
  rw [h]
  rfl

theorem runUpdate_no_mods (doc : JVal) (net : Net) (ro : Bool) (fs0 : FS)
    (h : getMods doc = []) :
    runUpdate doc net ro fs0
      = ⟨some "No mods found in manifest!", fs0, [], 0, 0, 0⟩ := by
  simp only [runUpdate, h]
  rfl

theorem runUpdate_err_none (doc : JVal) (net : Net) (ro : Bool) (fs0 : FS)
    (h : getMods doc ≠ []) : (runUpdate doc net ro fs0).err = none := by
  have hfalse : (getMods doc).isEmpty = false := by
    cases hg : getMods doc with
    | nil => exact absurd hg h
    | cons a l => rfl
  simp only [runUpdate, hfalse]
  rfl

/-! ### Claim C7 -/

/-- C7: for every byte stream, the builder's digest function (reading in
4096-byte chunks) and the client's digest function (reading in 8192-byte
chunks) return the same lowercase hexadecimal SHA-256 string, equal to the
digest of the whole stream processed at once; the digest is deterministic
and independent of chunking (any chunk size at least 1). -/
theorem C7_digest_chunking_independent (data : List Nat) :
    compute_sha256 data = clientSha256 data ∧
    compute_sha256 data = sha256hex data ∧
    (∀ sz, 1 ≤ sz → sha256hex (hashFoldChunks sz data) = sha256hex data) ∧
    (∀ ch ∈ (compute_sha256 data).data, ch ∈ hexDigits) := by
  refine ⟨?_, compute_sha256_eq data, ?_, ?_⟩
  · rw [compute_sha256_eq, clientSha256_eq]
  · intro sz hsz
    rw [hashFoldChunks_eq sz hsz]
  · rw [compute_sha256_eq]
    exact sha256hex_chars_lowercase data

/-- C7 witness: hashing a concrete stream in chunks of 5 bytes yields the
digest of the whole stream. -/
theorem C7_witness :
    sha256hex (hashFoldChunks 5 [10, 20, 30]) = sha256hex [10, 20, 30] :=
  (C7_digest_chunking_independent [10, 20, 30]).2.2.1 5 (by decide)

/-! ### Claim C10 -/

/-- C10: `ModUpdater.calculate_sha256` returns None exactly when the path
does not exist in the folder (rather than raising), and returns the SHA-256
hex digest of the file's contents when the file exists. -/
theorem C10_missing_path_none (fs : FS) (p : String) :
    (calculate_sha256 fs p = none ↔ fs.lookup p = none) ∧
    (∀ c, fs.lookup p = some c → calculate_sha256 fs p = some (sha256hex c)) := by
  constructor
  · constructor
    · intro h
      cases hc : fs.lookup p with
      | none => rfl
      | some c =>
          rw [calculate_sha256_of_lookup fs p c hc] at h
          exact (Option.some_ne_none _ h).elim
    · intro h
      unfold calculate_sha256
      rw [h]
  · exact fun c hc => calculate_sha256_of_lookup fs p c hc

/-- C10 witness: on a folder holding `a.jar` with bytes `[1, 2]`, the digest
operation returns the SHA-256 hex digest of those bytes. -/
theorem C10_witness :
    calculate_sha256 [("a.jar", [1, 2])] "a.jar" = some (sha256hex [1, 2]) :=
  (C10_missing_path_none [("a.jar", [1, 2])] "a.jar").2 [1, 2] rfl

/-! ### Claim C3 -/

/-- C3: for every manifest document whose extracted mods list is empty,
every local state, every network and every cleanup setting, the run fails
fast with the no-mods error, performs no action at all (in particular no
Delete), and leaves the folder untouched. -/
theorem C3_empty_manifest_guard (doc : JVal) (net : Net) (ro : Bool) (fs0 : FS)
    (h : getMods doc = []) :
    runUpdate doc net ro fs0
      = ⟨some "No mods found in manifest!", fs0, [], 0, 0, 0⟩ :=
  runUpdate_no_mods doc net ro fs0 h

/-- C3 witness: an empty categorized manifest with cleanup enabled and a
stale local file present: the run errors and the file survives. -/
theorem C3_witness :
    runUpdate docEmptyCat netNone true [("keepme.jar", [7])]
      = ⟨some "No mods found in manifest!", [("keepme.jar", [7])], [], 0, 0, 0⟩ :=
  C3_empty_manifest_guard docEmptyCat netNone true [("keepme.jar", [7])] rfl

/-! ### Claim C8 -/

/-- C8 counterexample: a concrete legacy flat manifest document is not
normalized into the manifest model; the run fails fast with the no-mods
error and performs no reconciliation, refuting that reconciliation proceeds
for both schema variants. -/
theorem C8_counterexample :
    (runUpdate docFlatLegacy netNone true []).err = some "No mods found in manifest!" ∧
    (runUpdate docFlatLegacy netNone true []).actions = [] := ⟨rfl, rfl⟩

/-- C8 (amended): the client reads only the categorized schema.  Every
document the legacy flat builder produces (its keys are `.jar` file names,
so there is no top-level "modpack" key) yields an empty mods list and the
run fails fast with the no-mods error; a document whose categorized mods
list is non-empty proceeds without that error. -/
theorem C8_schema_handling :
    (∀ (files : List (String × List Nat)) (net : Net) (ro : Bool) (fs0 : FS),
      runUpdate (generate_manifest_flat files) net ro fs0
        = ⟨some "No mods found in manifest!", fs0, [], 0, 0, 0⟩) ∧
    (∀ (doc : JVal) (net : Net) (ro : Bool) (fs0 : FS),
      getMods doc ≠ [] → (runUpdate doc net ro fs0).err = none) := by
  constructor
  · intro files net ro fs0
    apply runUpdate_no_mods
    apply getMods_no_modpack
    apply lookup_none_of_ne
    intro e he
    obtain ⟨f, hf, hef⟩ := List.mem_map.mp he
    rw [← hef]
    intro hk
    have hend : strEndsWith f.1 ".jar" = true := (List.mem_filter.mp hf).2
    rw [hk] at hend
    exact absurd hend (by decide)
  · exact fun doc net ro fs0 h => runUpdate_err_none doc net ro fs0 h

/-- C8 witness: a categorized document with one mod proceeds (no error),
even on a dead network. -/
theorem C8_witness :
    (runUpdate (JVal.jobj [("modpack", JVal.jobj [("mods",
        JVal.jarr [JVal.jobj [("file", JVal.jstr "mods/a.jar")]])])])
      netNone true []).err = none :=
  C8_schema_handling.2
    (JVal.jobj [("modpack", JVal.jobj [("mods",
        JVal.jarr [JVal.jobj [("file", JVal.jstr "mods/a.jar")]])])])
    netNone true [] (by intro h; cases h)

/-- C2 counterexample: a transfer announced as 4 bytes fails after 2 bytes;
`download_file` returns `False` yet the live destination file, which held
`[9, 9, 9]` before, now holds the partial stream `[1, 2]` — there is no
temporary location and no atomic placement. -/
theorem C2_counterexample :
    (download_file netPartial "u" "d" [("d", [9, 9, 9])]).ok = false ∧
    (download_file netPartial "u" "d" [("d", [9, 9, 9])]).fs.lookup "d" = some [1, 2] :=
  ⟨rfl, rfl⟩

/-- C2 (amended): the transport writes the stream directly to the live
destination as chunks arrive.  When `urlopen` itself fails the destination
is untouched and `False` is returned; otherwise the destination ends up
holding exactly the delivered bytes — the full payload when the stream
completes (`True` returned), and a partial stream when the transfer fails
partway (`False` returned). -/
theorem C2_transport_writes_live :
    (∀ (net : Net) (url dest : String) (fs : FS) (resp : HttpResponse),
      net url = some resp → (∀ ch ∈ resp.chunks, ch ≠ []) →
      (download_file net url dest fs).fs.lookup dest = some resp.chunks.flatten ∧
      ((download_file net url dest fs).ok = true ↔ resp.broken = false)) ∧
    (∀ (net : Net) (url dest : String) (fs : FS),
      net url = none → download_file net url dest fs = ⟨false, fs, []⟩) := by
  constructor
  · intro net url dest fs resp hn hne
    have hdl := dlWrite_complete resp.contentLength resp.chunks hne 0
    rw [download_file_some net url dest fs resp hn]
    constructor
    · show (fsWrite fs dest _).lookup dest = _
      rw [fsWrite_lookup_self, hdl.1]
    · show (!(resp.broken && _)) = true ↔ _
      rw [hdl.2]
      cases resp.broken <;> simp
  · exact fun net url dest fs hn => download_file_none net url dest fs hn

/-- C2 witness: a completed transfer leaves the full payload at the
destination and reports success. -/
theorem C2_witness :
    (download_file netOneGood "u" "d" []).fs.lookup "d" = some [1, 2, 3] ∧
    (download_file netOneGood "u" "d" []).ok = true := by
  have h := C2_transport_writes_live.1 netOneGood "u" "d" [] ⟨[[1, 2, 3]], 3, false⟩
    rfl (by decide)
  exact ⟨by simpa using h.1, h.2.mpr rfl⟩

/-- C9 counterexample: when the response reports no positive Content-Length,
the progress callback is never invoked although a non-empty chunk is read —
the callback is not invoked once per chunk read. -/
theorem C9_counterexample :
    netNoLength "u" = some ⟨[[1]], 0, false⟩ ∧
    (download_file netNoLength "u" "d" []).ok = true ∧
    (download_file netNoLength "u" "d" []).prog = [] :=
  ⟨rfl, rfl, rfl⟩

/-- C9 (amended): within one fetch whose response reports a positive
Content-Length, the progress callback is invoked exactly once per chunk
read, and the sequence of values passed to it (percentages of a fixed
total, hence ordered as the bytes-done counts) is monotonically
non-decreasing. -/
theorem C9_progress_monotone :
    ∀ (net : Net) (url dest : String) (fs : FS) (resp : HttpResponse),
      net url = some resp → 0 < resp.contentLength → (∀ ch ∈ resp.chunks, ch ≠ []) →
      (download_file net url dest fs).prog.length = resp.chunks.length ∧
      List.Chain' (· ≤ ·) (download_file net url dest fs).prog := by
  intro net url dest fs resp hn ht hne
  rw [download_file_some net url dest fs resp hn]
  have h := dlWrite_prog_chain resp.contentLength ht resp.chunks hne 0
  exact ⟨h.1, List.Chain'.tail (show List.Chain' (· ≤ ·) (_ :: _) from h.2)⟩

/-- C9 witness: a two-chunk fetch with Content-Length 3 reports exactly two
monotone progress values. -/
theorem C9_witness :
    (download_file netTwoChunks "u" "d" []).prog.length = 2 ∧
    List.Chain' (· ≤ ·) (download_file netTwoChunks "u" "d" []).prog := by
  have h := C9_progress_monotone netTwoChunks "u" "d" [] ⟨[[1], [2, 3]], 3, false⟩
    rfl (by decide) (by decide)
  exact ⟨h.1, h.2⟩

/-- C5 counterexample: the local tree holds every manifest path with the
expected digest (`a.jar` with bytes `[1]`) plus one extra file, and cleanup
is enabled: the run's plan is a Keep followed by a Delete — not only Keep
actions. -/
theorem C5_counterexample :
    (runUpdateCore netNone true modsC5 [("a.jar", [1]), ("b.jar", [2])]).actions
      = [PAction.keep "a.jar", PAction.del "b.jar"] := by decide

/-- C5 (amended): against a fully synced tree — every manifest path present
with the expected digest AND every tracked local file covered by the
manifest — a re-run produces exactly the all-Keep plan, performs zero
download calls and leaves the folder unchanged, for every cleanup setting.
With extra local files and cleanup enabled, Delete actions appear (still
zero downloads), as the counterexample shows. -/
theorem C5_synced_all_keep (net : Net) (ro : Bool) (mods : List ModEntry) (fs0 : FS)
    (hne : ∀ m ∈ mods, fname m ≠ "")
    (hsync : ∀ m ∈ mods, ∃ c, fs0.lookup (fname m) = some c ∧
        m.sha256 = some (sha256hex c))
    (hcover : ∀ q ∈ fsNames fs0, q ∈ mods.map fname) :
    (runUpdateCore net ro mods fs0).actions
      = mods.map (fun m => PAction.keep (fname m)) ∧
    (runUpdateCore net ro mods fs0).netCalls = 0 ∧
    (runUpdateCore net ro mods fs0).fs = fs0 := by
  obtain ⟨k1, k2, k3, k4⟩ :=
    foldl_stepMod_keep net mods ⟨fs0, [], 0, 0, [], 0⟩ hne hsync
  have hclean := cleanup_id_of_cover ro (fsNames fs0)
    (mods.foldl (stepMod net) ⟨fs0, [], 0, 0, [], 0⟩)
    (by
      intro f hf
      rw [k4]
      simpa using hcover f hf)
  have hfields : runUpdateCore net ro mods fs0 = ⟨none,
      (cleanup ro (fsNames fs0) (mods.foldl (stepMod net) ⟨fs0, [], 0, 0, [], 0⟩)).fs,
      (cleanup ro (fsNames fs0) (mods.foldl (stepMod net) ⟨fs0, [], 0, 0, [], 0⟩)).actions,
      (cleanup ro (fsNames fs0) (mods.foldl (stepMod net) ⟨fs0, [], 0, 0, [], 0⟩)).success,
      (cleanup ro (fsNames fs0) (mods.foldl (stepMod net) ⟨fs0, [], 0, 0, [], 0⟩)).errors,
      (cleanup ro (fsNames fs0) (mods.foldl (stepMod net) ⟨fs0, [], 0, 0, [], 0⟩)).netCalls⟩ :=
    rfl
  rw [hfields, hclean]
  refine ⟨?_, k3, k1⟩
  rw [k2]
  exact List.nil_append _

/-- C5 witness: one synced entry, no extra local files, cleanup on: the
run keeps the file, makes no network call, and changes nothing. -/
theorem C5_witness :
    (runUpdateCore netNone true modsC5 [("a.jar", [1])]).actions
      = modsC5.map (fun m => PAction.keep (fname m)) ∧
    (runUpdateCore netNone true modsC5 [("a.jar", [1])]).netCalls = 0 ∧
    (runUpdateCore netNone true modsC5 [("a.jar", [1])]).fs = [("a.jar", [1])] := by
  apply C5_synced_all_keep
  · decide
  · intro m hm
    have hm2 : m = ⟨"mods/a.jar", none, some (sha256hex [1])⟩ := by
      simpa [modsC5] using hm
    subst hm2
    exact ⟨[1], rfl, rfl⟩
  · decide

/-- C6 counterexample: two manifest entries with distinct relative paths but
the same base name produce two actions for the same path — the plan is keyed
by base name and a relativePath appears twice. -/
theorem C6_counterexample :
    (runUpdateCore netC6 false modsC6cx []).actions
      = [PAction.fetch "a.jar" FetchOutcome.success,
         PAction.fetch "a.jar" FetchOutcome.success] ∧
    ¬ ((runUpdateCore netC6 false modsC6cx []).actions.map actionPath).Nodup := by
  constructor <;> decide

/-- C6 (amended): provided every entry's derived file name (the last segment
of its `file` field) is non-empty and the derived names are pairwise
distinct, the run's actions partition exactly: the Keep/Fetch action paths
are exactly the manifest's derived names in order, the Delete paths are
exactly the pre-run listing minus the manifest names when cleanup is enabled
and absent otherwise, and no path appears in two actions. -/
theorem C6_plan_partition (net : Net) (ro : Bool) (mods : List ModEntry) (fs0 : FS)
    (hne : ∀ m ∈ mods, fname m ≠ "")
    (hnd : (mods.map fname).Nodup) :
    keepFetchPaths (runUpdateCore net ro mods fs0).actions = mods.map fname ∧
    delPaths (runUpdateCore net ro mods fs0).actions
      = (if ro then ((fsNames fs0).filter
          (fun f => !((mods.map fname).contains f))).dedup else []) ∧
    ((runUpdateCore net ro mods fs0).actions.map actionPath).Nodup := by
  obtain ⟨outs, hf2, hact, hfiles⟩ :=
    foldl_stepMod_shape net mods ⟨fs0, [], 0, 0, [], 0⟩ hne
  obtain ⟨p1, p2, p3, p4⟩ := forall₂_keepFetch mods outs hf2
  have hactions : (runUpdateCore net ro mods fs0).actions
      = (mods.foldl (stepMod net) ⟨fs0, [], 0, 0, [], 0⟩).actions ++
        (if ro then (((fsNames fs0).filter
          (fun f => !((mods.map fname).contains f))).dedup).map PAction.del
         else []) := by
    show (cleanup ro (fsNames fs0)
      (mods.foldl (stepMod net) ⟨fs0, [], 0, 0, [], 0⟩)).actions = _
    rw [cleanup_actions]
    simp only [hfiles, List.nil_append]
  rw [hactions, hact, List.nil_append]
  cases ro with
  | false =>
      simp only [Bool.false_eq_true, if_false, List.append_nil]
      exact ⟨p1, p2, p3 ▸ hnd⟩
  | true =>
      simp only [if_true]
      refine ⟨?_, ?_, ?_⟩
      · rw [keepFetchPaths_append, p1, keepFetchPaths_map_del, List.append_nil]
      · rw [delPaths_append, p2, delPaths_map_del, List.nil_append]
      · rw [List.map_append, p3, map_actionPath_map_del]
        rw [List.nodup_append]
        refine ⟨hnd, List.nodup_dedup _, ?_⟩
        intro x hx hx2
        have hmem := List.mem_filter.mp (List.mem_dedup.mp hx2)
        have : ¬ x ∈ mods.map fname := by
          have h2 := hmem.2
          simp only [Bool.not_eq_true'] at h2
          simpa using h2
        exact this hx

/-- C6 witness: one manifest entry, one matching local file and one stale
file, cleanup enabled: Keep/Fetch paths equal the manifest names, the stale
file is the only Delete, and no path repeats. -/
theorem C6_witness :
    keepFetchPaths (runUpdateCore netC6 true modsC6w fsC6w).actions
      = modsC6w.map fname ∧
    delPaths (runUpdateCore netC6 true modsC6w fsC6w).actions
      = (if true then ((fsNames fsC6w).filter
          (fun f => !((modsC6w.map fname).contains f))).dedup else []) ∧
    ((runUpdateCore netC6 true modsC6w fsC6w).actions.map actionPath).Nodup :=
  C6_plan_partition netC6 true modsC6w fsC6w (by decide) (by decide)

theorem forall₂_okOutcome_facts (l : List ModEntry) (outs : List PAction)
    (h : List.Forall₂ okOutcome l outs) :
    outs.filter isDownloadFailed = [] ∧ keepFetchPaths outs = l.map fname ∧
    delPaths outs = [] ∧ outs.length = l.length := by
  induction h with
  | nil => exact ⟨rfl, rfl, rfl, rfl⟩
  | @cons m a l2 outs2 hma hrest ih =>
      obtain ⟨i1, i2, i3, i4⟩ := ih
      rcases hma with h | h <;> subst h <;>
        exact ⟨by simp [isDownloadFailed, List.filter_cons, i1],
               by simpa [keepFetchPaths, List.filterMap_cons] using i2,
               by simpa [delPaths, List.filterMap_cons] using i3,
               by simp [i4]⟩

theorem cleanup_dels_isDel (ro : Bool) (names : List String) :
    ∀ a ∈ (if ro then names.map PAction.del else []), a.isDel = true := by
  cases ro with
  | false => intro a ha; simp at ha
  | true =>
      intro a ha
      simp only [if_true] at ha
      obtain ⟨p, _, hp⟩ := List.mem_map.mp ha
      rw [← hp]
      rfl

theorem filter_dlFailed_of_isDel (dels : List PAction)
    (h : ∀ a ∈ dels, a.isDel = true) : dels.filter isDownloadFailed = [] := by
  rw [List.filter_eq_nil_iff]
  intro a ha
  have hd := h a ha
  cases a with
  | del p => simp [isDownloadFailed]
  | keep p => simp [PAction.isDel] at hd
  | fetch p o => simp [PAction.isDel] at hd

theorem keepFetchPaths_of_isDel (dels : List PAction)
    (h : ∀ a ∈ dels, a.isDel = true) : keepFetchPaths dels = [] := by
  unfold keepFetchPaths
  rw [List.filterMap_eq_nil_iff]
  intro a ha
  have hd := h a ha
  cases a with
  | del p => rfl
  | keep p => simp [PAction.isDel] at hd
  | fetch p o => simp [PAction.isDel] at hd

/-- C4: for every run whose plan is N Fetch actions (distinct, non-empty
derived names, none present locally) with exactly one entry's locator
unreachable and every other transfer raising no transport error, the run
records exactly one DownloadFailed — at the unreachable entry's name — and
still records one outcome per entry for all N entries (the run completes,
never aborting). -/
theorem C4_partial_failure_isolated (net : Net) (ro : Bool)
    (pre : List ModEntry) (bad : ModEntry) (post : List ModEntry) (fs0 : FS)
    (hne : ∀ m ∈ pre ++ bad :: post, fname m ≠ "")
    (hnd : ((pre ++ bad :: post).map fname).Nodup)
    (hfresh : ∀ m ∈ pre ++ bad :: post, fs0.lookup (fname m) = none)
    (hok : ∀ m ∈ pre ++ post, ∃ resp, net (modUrl m) = some resp ∧ resp.broken = false)
    (hbad : net (modUrl bad) = none) :
    (runUpdateCore net ro (pre ++ bad :: post) fs0).actions.filter isDownloadFailed
      = [PAction.fetch (fname bad) FetchOutcome.downloadFailed] ∧
    keepFetchPaths (runUpdateCore net ro (pre ++ bad :: post) fs0).actions
      = (pre ++ bad :: post).map fname := by
  have hmap : (pre ++ bad :: post).map fname
      = pre.map fname ++ fname bad :: post.map fname := by simp
  rw [hmap] at hnd
  obtain ⟨hndpre, hnd2, hdisj⟩ := List.nodup_append.mp hnd
  obtain ⟨hbadpost, hndpost⟩ := List.nodup_cons.mp hnd2
  have hne_pre : ∀ m ∈ pre, fname m ≠ "" :=
    fun m hm => hne m (List.mem_append_left _ hm)
  have hne_bad : fname bad ≠ "" :=
    hne bad (List.mem_append_right _ (List.mem_cons_self _ _))
  have hne_post : ∀ m ∈ post, fname m ≠ "" :=
    fun m hm => hne m (List.mem_append_right _ (List.mem_cons_of_mem _ hm))
  have hfresh_pre : ∀ m ∈ pre, fs0.lookup (fname m) = none :=
    fun m hm => hfresh m (List.mem_append_left _ hm)
  have hok_pre : ∀ m ∈ pre, ∃ resp, net (modUrl m) = some resp ∧ resp.broken = false :=
    fun m hm => hok m (List.mem_append_left _ hm)
  have hok_post : ∀ m ∈ post, ∃ resp, net (modUrl m) = some resp ∧ resp.broken = false :=
    fun m hm => hok m (List.mem_append_right _ hm)
  obtain ⟨outsPre, hf2pre, hactpre⟩ :=
    foldl_fresh net pre ⟨fs0, [], 0, 0, [], 0⟩ hne_pre hndpre hfresh_pre hok_pre
  have hprebad : ∀ m ∈ pre, fname m ≠ fname bad := by
    intro m hm heq
    exact hdisj (heq ▸ List.mem_map_of_mem fname hm) (List.mem_cons_self _ _)
  have hbadfresh :
      (pre.foldl (stepMod net) ⟨fs0, [], 0, 0, [], 0⟩).fs.lookup (fname bad) = none := by
    rw [foldl_fs_lookup_other net pre _ (fname bad) hprebad]
    exact hfresh bad (List.mem_append_right _ (List.mem_cons_self _ _))
  have hstep := stepMod_fetch_fresh net
    (pre.foldl (stepMod net) ⟨fs0, [], 0, 0, [], 0⟩) bad hne_bad hbadfresh
  have hact2 : (stepMod net (pre.foldl (stepMod net) ⟨fs0, [], 0, 0, [], 0⟩) bad).actions
      = (pre.foldl (stepMod net) ⟨fs0, [], 0, 0, [], 0⟩).actions
        ++ [PAction.fetch (fname bad) FetchOutcome.downloadFailed] := by
    rw [hstep]
    show (pre.foldl (stepMod net) ⟨fs0, [], 0, 0, [], 0⟩).actions
      ++ [PAction.fetch (fname bad) (fetchOutcomeOf net
            (pre.foldl (stepMod net) ⟨fs0, [], 0, 0, [], 0⟩).fs bad (fname bad))] = _
    rw [fetchOutcomeOf_fail net _ bad (fname bad) hbad]
  have hfs2 : (stepMod net (pre.foldl (stepMod net) ⟨fs0, [], 0, 0, [], 0⟩) bad).fs
      = (pre.foldl (stepMod net) ⟨fs0, [], 0, 0, [], 0⟩).fs := by
    rw [hstep, fetchStep_fs_eq, download_file_none _ _ _ _ hbad]
  have hfresh_post : ∀ m ∈ post,
      (stepMod net (pre.foldl (stepMod net) ⟨fs0, [], 0, 0, [], 0⟩) bad).fs.lookup (fname m)
        = none := by
    intro m hm
    rw [hfs2, foldl_fs_lookup_other net pre _ (fname m) ?_]
    · exact hfresh m (List.mem_append_right _ (List.mem_cons_of_mem _ hm))
    · intro x hx heq
      exact hdisj (heq ▸ List.mem_map_of_mem fname hx)
        (List.mem_cons_of_mem _ (List.mem_map_of_mem fname hm))
  obtain ⟨outsPost, hf2post, hactpost⟩ :=
    foldl_fresh net post (stepMod net (pre.foldl (stepMod net) ⟨fs0, [], 0, 0, [], 0⟩) bad)
      hne_post hndpost hfresh_post hok_post
  obtain ⟨qp1, qp2, qp3, qp4⟩ := forall₂_okOutcome_facts pre outsPre hf2pre
  obtain ⟨qq1, qq2, qq3, qq4⟩ := forall₂_okOutcome_facts post outsPost hf2post
  have hacts : (runUpdateCore net ro (pre ++ bad :: post) fs0).actions
      = (outsPre ++ [PAction.fetch (fname bad) FetchOutcome.downloadFailed] ++ outsPost)
        ++ (if ro then
            ((((fsNames fs0).filter (fun f =>
              !(((pre ++ bad :: post).foldl (stepMod net)
                  ⟨fs0, [], 0, 0, [], 0⟩).filesInManifest.contains f))).dedup).map
              PAction.del)
           else []) := by
    show (cleanup ro (fsNames fs0)
      ((pre ++ bad :: post).foldl (stepMod net) ⟨fs0, [], 0, 0, [], 0⟩)).actions = _
    rw [cleanup_actions]
    have hfold : (pre ++ bad :: post).foldl (stepMod net) ⟨fs0, [], 0, 0, [], 0⟩
        = post.foldl (stepMod net)
            (stepMod net (pre.foldl (stepMod net) ⟨fs0, [], 0, 0, [], 0⟩) bad) := by
      rw [List.foldl_append, List.foldl_cons]
    rw [hfold, hactpost, hact2, hactpre, List.nil_append]
  rw [hacts]
  have hdels := cleanup_dels_isDel ro
    (((fsNames fs0).filter (fun f =>
      !(((pre ++ bad :: post).foldl (stepMod net)
          ⟨fs0, [], 0, 0, [], 0⟩).filesInManifest.contains f))).dedup)
  constructor
  · rw [List.filter_append, List.filter_append, List.filter_append]
    rw [qp1, qq1, filter_dlFailed_of_isDel _ hdels]
    simp [isDownloadFailed, List.filter_cons]
  · rw [keepFetchPaths_append, keepFetchPaths_append, keepFetchPaths_append]
    rw [qp2, qq2, keepFetchPaths_of_isDel _ hdels, hmap]
    simp [keepFetchPaths, List.filterMap_cons]

theorem isDel_false_of_delPaths_nil (outs : List PAction) (h : delPaths outs = []) :
    ∀ a ∈ outs, a.isDel = false := by
  intro a ha
  cases a with
  | keep p => rfl
  | fetch p o => rfl
  | del p =>
      exfalso
      have h2 := List.filterMap_eq_nil_iff.mp h _ ha
      simp at h2

theorem filter_not_isDel_eq_self (outs : List PAction)
    (h : ∀ a ∈ outs, a.isDel = false) :
    outs.filter (fun a => !a.isDel) = outs := by
  rw [List.filter_eq_self]
  intro a ha
  rw [h a ha]
  rfl

theorem filter_not_isDel_nil (dels : List PAction)
    (h : ∀ a ∈ dels, a.isDel = true) :
    dels.filter (fun a => !a.isDel) = [] := by
  rw [List.filter_eq_nil_iff]
  intro a ha
  rw [h a ha]
  simp

/-- C1 (amended): for every run in which one entry's local file is present
but stale (its digest differs from the expected one), the download succeeds,
and the downloaded bytes hash to a digest different from the entry's
expected digest: the run records HashMismatch for exactly that entry (at its
position among the non-Delete actions), still records one action per entry
(it continues with the remaining actions), but the live file at that path
now holds the downloaded mismatching bytes — it is NOT byte-for-byte
unchanged; the previous content is lost. -/
theorem C1_hash_mismatch_overwrites (net : Net) (ro : Bool)
    (pre : List ModEntry) (bad : ModEntry) (post : List ModEntry) (fs0 : FS)
    (oldBytes : List Nat) (d : String) (resp : HttpResponse)
    (hne : ∀ m ∈ pre ++ bad :: post, fname m ≠ "")
    (hnd : ((pre ++ bad :: post).map fname).Nodup)
    (hold : fs0.lookup (fname bad) = some oldBytes)
    (hd : bad.sha256 = some d)
    (hmisOld : sha256hex oldBytes ≠ d)
    (hn : net (modUrl bad) = some resp)
    (hb : resp.broken = false)
    (hmisNew : sha256hex (dlWrite resp.contentLength 0 resp.chunks).written ≠ d) :
    keepFetchPaths (runUpdateCore net ro (pre ++ bad :: post) fs0).actions
      = (pre ++ bad :: post).map fname ∧
    ((runUpdateCore net ro (pre ++ bad :: post) fs0).actions.filter
        (fun a => !a.isDel))[pre.length]?
      = some (PAction.fetch (fname bad) FetchOutcome.hashMismatch) ∧
    (runUpdateCore net ro (pre ++ bad :: post) fs0).fs.lookup (fname bad)
      = some (dlWrite resp.contentLength 0 resp.chunks).written := by
  have hmap : (pre ++ bad :: post).map fname
      = pre.map fname ++ fname bad :: post.map fname := by simp
  rw [hmap] at hnd
  obtain ⟨hndpre, hnd2, hdisj⟩ := List.nodup_append.mp hnd
  obtain ⟨hbadpost, hndpost⟩ := List.nodup_cons.mp hnd2
  have hne_pre : ∀ m ∈ pre, fname m ≠ "" :=
    fun m hm => hne m (List.mem_append_left _ hm)
  have hne_bad : fname bad ≠ "" :=
    hne bad (List.mem_append_right _ (List.mem_cons_self _ _))
  have hne_post : ∀ m ∈ post, fname m ≠ "" :=
    fun m hm => hne m (List.mem_append_right _ (List.mem_cons_of_mem _ hm))
  have hprebad : ∀ m ∈ pre, fname m ≠ fname bad := by
    intro m hm heq
    exact hdisj (heq ▸ List.mem_map_of_mem fname hm) (List.mem_cons_self _ _)
  have hpostbad : ∀ m ∈ post, fname m ≠ fname bad := by
    intro m hm heq
    exact hbadpost (heq ▸ List.mem_map_of_mem fname hm)
  obtain ⟨outsPre, hf2pre, hactpre, hfilespre⟩ :=
    foldl_stepMod_shape net pre ⟨fs0, [], 0, 0, [], 0⟩ hne_pre
  have hbadpre :
      (pre.foldl (stepMod net) ⟨fs0, [], 0, 0, [], 0⟩).fs.lookup (fname bad)
        = some oldBytes := by
    rw [foldl_fs_lookup_other net pre _ (fname bad) hprebad]
    exact hold
  obtain ⟨hactbad, hfsbad, hfilesbad⟩ :=
    stepMod_fetch_mismatch net (pre.foldl (stepMod net) ⟨fs0, [], 0, 0, [], 0⟩) bad
      oldBytes d resp hne_bad hbadpre hd hmisOld hn hb hmisNew
  obtain ⟨outsPost, hf2post, hactpost, hfilespost⟩ :=
    foldl_stepMod_shape net post
      (stepMod net (pre.foldl (stepMod net) ⟨fs0, [], 0, 0, [], 0⟩) bad) hne_post
  obtain ⟨kp1, kp2, kp3, kp4⟩ := forall₂_keepFetch pre outsPre hf2pre
  obtain ⟨kq1, kq2, kq3, kq4⟩ := forall₂_keepFetch post outsPost hf2post
  have hfold : (pre ++ bad :: post).foldl (stepMod net) ⟨fs0, [], 0, 0, [], 0⟩
      = post.foldl (stepMod net)
          (stepMod net (pre.foldl (stepMod net) ⟨fs0, [], 0, 0, [], 0⟩) bad) := by
    rw [List.foldl_append, List.foldl_cons]
  have hbadmem : fname bad ∈
      (post.foldl (stepMod net)
        (stepMod net (pre.foldl (stepMod net) ⟨fs0, [], 0, 0, [], 0⟩) bad)).filesInManifest := by
    rw [hfilespost, hfilesbad]
    exact List.mem_append_left _ (List.mem_append_right _ (List.mem_cons_self _ _))
  have hacts : (runUpdateCore net ro (pre ++ bad :: post) fs0).actions
      = (outsPre ++ PAction.fetch (fname bad) FetchOutcome.hashMismatch :: outsPost)
        ++ (if ro then
            ((((fsNames fs0).filter (fun f =>
              !(((pre ++ bad :: post).foldl (stepMod net)
                  ⟨fs0, [], 0, 0, [], 0⟩).filesInManifest.contains f))).dedup).map
              PAction.del)
           else []) := by
    show (cleanup ro (fsNames fs0)
      ((pre ++ bad :: post).foldl (stepMod net) ⟨fs0, [], 0, 0, [], 0⟩)).actions = _
    rw [cleanup_actions, hfold, hactpost, hactbad, hactpre, List.nil_append]
    simp [List.append_assoc]
  have hdels := cleanup_dels_isDel ro
    (((fsNames fs0).filter (fun f =>
      !(((pre ++ bad :: post).foldl (stepMod net)
          ⟨fs0, [], 0, 0, [], 0⟩).filesInManifest.contains f))).dedup)
  refine ⟨?_, ?_, ?_⟩
  · rw [hacts, keepFetchPaths_append, keepFetchPaths_of_isDel _ hdels, List.append_nil]
    rw [show PAction.fetch (fname bad) FetchOutcome.hashMismatch :: outsPost
          = [PAction.fetch (fname bad) FetchOutcome.hashMismatch] ++ outsPost from rfl,
        keepFetchPaths_append, keepFetchPaths_append, kp1, kq1, hmap]
    simp [keepFetchPaths, List.filterMap_cons]
  · rw [hacts, List.filter_append, filter_not_isDel_nil _ hdels, List.append_nil]
    rw [show PAction.fetch (fname bad) FetchOutcome.hashMismatch :: outsPost
          = [PAction.fetch (fname bad) FetchOutcome.hashMismatch] ++ outsPost from rfl,
        List.filter_append, List.filter_append,
        filter_not_isDel_eq_self outsPre (isDel_false_of_delPaths_nil outsPre kp2),
        filter_not_isDel_eq_self outsPost (isDel_false_of_delPaths_nil outsPost kq2)]
    have hfm : ([PAction.fetch (fname bad) FetchOutcome.hashMismatch].filter
        (fun a => !a.isDel)) = [PAction.fetch (fname bad) FetchOutcome.hashMismatch] := rfl
    rw [hfm, ← kp4, List.getElem?_append_right le_rfl]
    simp
  · show (cleanup ro (fsNames fs0)
      ((pre ++ bad :: post).foldl (stepMod net) ⟨fs0, [], 0, 0, [], 0⟩)).fs.lookup (fname bad)
        = _
    rw [hfold]
    rw [cleanup_fs_lookup_mem ro (fsNames fs0) _ (fname bad) hbadmem]
    rw [foldl_fs_lookup_other net post _ (fname bad) hpostbad]
    exact hfsbad

/-- C4 witness: two fresh entries, the first unreachable, the second served:
exactly one DownloadFailed is recorded and both entries receive an outcome. -/
theorem C4_witness :
    (runUpdateCore netC4 true
        [⟨"mods/a.jar", none, none⟩, ⟨"mods/b.jar", none, none⟩] []).actions.filter
        isDownloadFailed
      = [PAction.fetch (fname (⟨"mods/a.jar", none, none⟩ : ModEntry))
          FetchOutcome.downloadFailed] ∧
    keepFetchPaths (runUpdateCore netC4 true
        [⟨"mods/a.jar", none, none⟩, ⟨"mods/b.jar", none, none⟩] []).actions
      = ([⟨"mods/a.jar", none, none⟩, ⟨"mods/b.jar", none, none⟩] : List ModEntry).map
          fname :=
  C4_partial_failure_isolated netC4 true [] ⟨"mods/a.jar", none, none⟩
    [⟨"mods/b.jar", none, none⟩] []
    (by decide) (by decide) (by decide)
    (by
      intro m hm
      have hm2 : m = ⟨"mods/b.jar", none, none⟩ := by simpa using hm
      subst hm2
      exact ⟨⟨[[5]], 1, false⟩, rfl, rfl⟩)
    rfl

/-- C1 counterexample: one entry expects digest `"x"`; the local `a.jar`
holds `[9]`; the download delivers `[2]`, whose digest mismatches; the run
records HashMismatch — but the live file now holds `[2]`, not its previous
content `[9]`: it is not byte-for-byte unchanged. -/
theorem C1_counterexample :
    (runUpdateCore netC6 false [⟨"mods/a.jar", none, some "x"⟩]
        [("a.jar", [9])]).actions
      = [PAction.fetch "a.jar" FetchOutcome.hashMismatch] ∧
    (runUpdateCore netC6 false [⟨"mods/a.jar", none, some "x"⟩]
        [("a.jar", [9])]).fs.lookup "a.jar" = some [2] ∧
    List.lookup "a.jar" ([("a.jar", [9])] : FS) = some [9] :=
  ⟨by decide, by decide, by decide⟩

/-- C1 witness: the concrete mismatching run of the counterexample, obtained
from the general theorem: the live file ends up holding the downloaded
bytes. -/
theorem C1_witness :
    (runUpdateCore netC6 false [⟨"mods/a.jar", none, some "x"⟩]
        [("a.jar", [9])]).fs.lookup "a.jar"
      = some ((dlWrite 1 0 [[2]]).written) := by
  obtain ⟨h1, h2, h3⟩ := C1_hash_mismatch_overwrites netC6 false []
    ⟨"mods/a.jar", none, some "x"⟩ [] [("a.jar", [9])] [9] "x" ⟨[[2]], 1, false⟩
    (by decide) (by decide) rfl rfl (by decide) rfl rfl (by decide)
  exact h3

/-- Sanity anchor: the embedded SHA-256 matches the standard test vector for
the empty message. -/
theorem sha256hex_empty_vector :
    sha256hex [] = "e3b0c44298fc1c149afbf4c8996fb92427ae41e4649b934ca495991b7852b855" := by
  decide

/-- Sanity anchor: the embedded SHA-256 matches the standard test vector for
the three-byte message "abc". -/
theorem sha256hex_abc_vector :
    sha256hex [0x61, 0x62, 0x63]
      = "ba7816bf8f01cfea414140de5dae2223b00361a396177a9cb410ff61f20015ad" := by
  decide
